import Mathlib

/-!
# Verification of the Neo4j CSV ingestion pipeline (`src/ingestion.py`)

A shallow embedding of the data-bearing operations of `ingestion.py`:

* `format_date` (ingestion.py lines 46-50): `datetime.strptime(str(x), "%Y%m%d")`
  followed by `strftime("%Y-%m-%d")`, with `ValueError`/`TypeError` mapped to
  `None`.  CPython's `_strptime` compiles `"%Y%m%d"` to the regular expression
  `(?P<Y>\d\d\d\d)(?P<m>1[0-2]|0[1-9]|[1-9])(?P<d>3[01]|[12]\d|0[1-9]|[1-9]| [1-9])`,
  matches it at the start of the string with the usual leftmost / first-alternative
  backtracking and then raises `ValueError` when unconverted characters remain.
  The date produced is validated by the `datetime` constructor
  (`1 <= year <= 9999`, day within the month) and rendered zero-padded
  (`%Y-%m-%d`, the rendering documented for `strftime`).  The model below
  reproduces exactly this: `monthCands`/`matchDay` are the two alternations in
  their priority order, `strpMatch` the anchored match plus the
  "unconverted data remains" check.
* the date-column loop (lines 52-55), applied only to columns present in the frame;
* the node loader `ingest_label` (lines 87-107): projection, `dropna` on the key
  column, chunking into batches of 20000, and per-row `MERGE`-by-key followed by
  `SET n += row`;
* the relationship loader `create_relationship` (lines 161-169): projection onto
  the two join-key columns, `dropna` on both, `drop_duplicates`, chunking;
* `create_constraints` (lines 74-82): five `CREATE CONSTRAINT IF NOT EXISTS`
  declarations.

Cypher's store-side semantics (`MERGE` + `SET n += row`, `CREATE CONSTRAINT
IF NOT EXISTS`) is external to the repository; those operations are modelled
from the spec's description of upsert ("a write operation that creates an
entity/relationship if absent by key, or updates its properties in place")
and of constraint declaration ("if the store already has the constraint, the
declaration is a no-op").
-/

/-- A Python scalar as it can appear in a cell of the loaded frame: a string,
an integer, an integral float (rendered by `repr` as `"<n>.0"`, the form pandas
gives e.g. numeric columns), or Python's `None`. -/
inductive PyVal where
  | pnone : PyVal
  | str (s : String) : PyVal
  | int (n : Int) : PyVal
  | floatInt (n : Int) : PyVal
deriving DecidableEq

/-- Python's `str(x)` on the values of `PyVal`: identity on strings,
decimal rendering of integers, `"<n>.0"` for an integral float,
`"None"` for `None`. -/
def pyStr : PyVal → String
  | .pnone => "None"
  | .str s => s
  | .int n => toString n
  | .floatInt n => toString n ++ ".0"

/-- The character class `\d` of the pattern (ASCII digits). -/
def asciiDigits : List Char := ['0', '1', '2', '3', '4', '5', '6', '7', '8', '9']

/-- The character class `[1-9]` of the pattern. -/
def nzDigits : List Char := ['1', '2', '3', '4', '5', '6', '7', '8', '9']

/-- The ASCII digit character of a digit value. -/
def digitChar (n : Nat) : Char := Char.ofNat (48 + n)

/-- The digit value of an ASCII digit character. -/
def digitVal (c : Char) : Nat := c.toNat - 48

/-- The `%m` directive of `_strptime`, the alternation
`1[0-2]|0[1-9]|[1-9]` tried in this order: each alternative that matches a
prefix of the input yields a candidate `(month value, rest)`, listed in
priority order.  (The first two alternatives exclude each other, so at most
one two-character candidate arises.) -/
def monthCands : List Char → List (Nat × List Char)
  | c1 :: c2 :: rest =>
      (if c1 = '1' ∧ c2 ∈ ['0', '1', '2'] then [(digitVal c1 * 10 + digitVal c2, rest)]
       else if c1 = '0' ∧ c2 ∈ nzDigits then [(digitVal c2, rest)]
       else []) ++
      (if c1 ∈ nzDigits then [(digitVal c1, c2 :: rest)] else [])
  | [c1] => if c1 ∈ nzDigits then [(digitVal c1, [])] else []
  | [] => []

/-- The `%d` directive of `_strptime`, the alternation
`3[01]|[12]\d|0[1-9]|[1-9]| [1-9]` tried in this order; the first alternative
matching a prefix wins (nothing follows `%d` in the pattern, so the regular
expression never backtracks into it). -/
def matchDay : List Char → Option (Nat × List Char)
  | c1 :: c2 :: rest =>
      if c1 = '3' ∧ c2 ∈ ['0', '1'] then some (30 + digitVal c2, rest)
      else if c1 ∈ ['1', '2'] ∧ c2 ∈ asciiDigits then some (digitVal c1 * 10 + digitVal c2, rest)
      else if c1 = '0' ∧ c2 ∈ nzDigits then some (digitVal c2, rest)
      else if c1 ∈ nzDigits then some (digitVal c1, c2 :: rest)
      else if c1 = ' ' ∧ c2 ∈ nzDigits then some (digitVal c2, rest)
      else none
  | [c1] => if c1 ∈ nzDigits then some (digitVal c1, []) else none
  | [] => none

/-- The `%m%d` part of the match after the year: the month candidates are
tried in priority order, the day matched after each (regex backtracking
across the two directives); the first success is kept, and the
"unconverted data remains" check of `_strptime` then requires the match to
have consumed the whole input. -/
def mdOutcome (cs : List Char) : Option (Nat × Nat) :=
  match (monthCands cs).findSome? (fun mc => (matchDay mc.2).map (fun dc => (mc.1, dc.1, dc.2))) with
  | some (m, d, r) => if r = [] then some (m, d) else none
  | none => none

/-- `datetime.strptime(s, "%Y%m%d")` up to (year, month, day) extraction:
`%Y` is exactly four `\d`, anchored at the start; then `%m%d` as `mdOutcome`,
which also enforces that no unconverted characters remain.  `none` is the
raised `ValueError`. -/
def strpMatch (cs : List Char) : Option (Nat × Nat × Nat) :=
  match cs with
  | y1 :: y2 :: y3 :: y4 :: rest =>
      if y1 ∈ asciiDigits ∧ y2 ∈ asciiDigits ∧ y3 ∈ asciiDigits ∧ y4 ∈ asciiDigits then
        (mdOutcome rest).map
          (fun md => (digitVal y1 * 1000 + digitVal y2 * 100 + digitVal y3 * 10 + digitVal y4,
                      md.1, md.2))
      else none
  | _ => none

/-- Gregorian leap year, as `calendar.isleap` / the `datetime` module. -/
def isLeap (y : Nat) : Bool := y % 4 = 0 ∧ (y % 100 ≠ 0 ∨ y % 400 = 0)

/-- Days in a month, as the `datetime` module's `_days_in_month`. -/
def daysInMonth (y m : Nat) : Nat :=
  if m = 2 then (if isLeap y then 29 else 28)
  else if m ∈ [4, 6, 9, 11] then 30 else 31

/-- The validation performed by the `datetime` constructor on the matched
fields: `MINYEAR = 1 ≤ year ≤ MAXYEAR = 9999`, `1 ≤ month ≤ 12`,
`1 ≤ day ≤ days_in_month`. -/
def validYmd (y m d : Nat) : Prop :=
  1 ≤ y ∧ y ≤ 9999 ∧ 1 ≤ m ∧ m ≤ 12 ∧ 1 ≤ d ∧ d ≤ daysInMonth y m

instance (y m d : Nat) : Decidable (validYmd y m d) := by
  unfold validYmd; infer_instance

/-- `strftime("%Y-%m-%d")` on a validated date: the zero-padded ISO calendar
string (`%Y` zero-padded to four digits as the Python documentation renders
it; some C libraries leave years below 1000 unpadded, a platform detail
outside this model). -/
def isoString (y m d : Nat) : String :=
  String.mk ([digitChar (y / 1000 % 10), digitChar (y / 100 % 10),
              digitChar (y / 10 % 10), digitChar (y % 10)] ++
             '-' :: [digitChar (m / 10 % 10), digitChar (m % 10)] ++
             '-' :: [digitChar (d / 10 % 10), digitChar (d % 10)])

/-- `format_date` (ingestion.py lines 46-50): parse `str(x)` with
`strptime("%Y%m%d")`, render the date back as `"%Y-%m-%d"`, and turn any
`ValueError`/`TypeError` into `None`.  Total by construction: the model of
"never raises". -/
def format_date (v : PyVal) : Option String :=
  match strpMatch (pyStr v).toList with
  | some (y, m, d) => if validYmd y m d then some (isoString y m d) else none
  | none => none

/-- The two-character column of a number below 100, as rendered zero-padded. -/
def pad2 (n : Nat) : List Char := [digitChar (n / 10 % 10), digitChar (n % 10)]

/-- The four digit characters of a number below 10000, zero-padded. -/
def pad4 (n : Nat) : List Char :=
  [digitChar (n / 1000 % 10), digitChar (n / 100 % 10), digitChar (n / 10 % 10), digitChar (n % 10)]

/-- The 8-character digit string `YYYYMMDD` of a (year, month, day) triple:
the "8-digit numeric form" of the spec. -/
def encode8 (y m d : Nat) : String := String.mk (pad4 y ++ pad2 m ++ pad2 d)

/-! ## Facts about the date model -/

theorem digitVal_digitChar {k : Nat} (h : k < 10) : digitVal (digitChar k) = k := by
  interval_cases k <;> decide

theorem digitChar_mem_asciiDigits {k : Nat} (h : k < 10) : digitChar k ∈ asciiDigits := by
  interval_cases k <;> decide

/-- After a zero-padded four-digit year, `strpMatch` is exactly the
month-day match on the remainder. -/
theorem strpMatch_pad4 (y : Nat) (hy : y < 10000) (cs : List Char) :
    strpMatch (pad4 y ++ cs) = (mdOutcome cs).map (fun md => (y, md.1, md.2)) := by
  have h1 : y / 1000 % 10 < 10 := Nat.mod_lt _ (by norm_num)
  have h2 : y / 100 % 10 < 10 := Nat.mod_lt _ (by norm_num)
  have h3 : y / 10 % 10 < 10 := Nat.mod_lt _ (by norm_num)
  have h4 : y % 10 < 10 := Nat.mod_lt _ (by norm_num)
  show strpMatch (digitChar (y / 1000 % 10) :: digitChar (y / 100 % 10) ::
      digitChar (y / 10 % 10) :: digitChar (y % 10) :: cs) = _
  simp only [strpMatch]
  rw [if_pos ⟨digitChar_mem_asciiDigits h1, digitChar_mem_asciiDigits h2,
      digitChar_mem_asciiDigits h3, digitChar_mem_asciiDigits h4⟩]
  have hyv : digitVal (digitChar (y / 1000 % 10)) * 1000 + digitVal (digitChar (y / 100 % 10)) * 100 +
      digitVal (digitChar (y / 10 % 10)) * 10 + digitVal (digitChar (y % 10)) = y := by
    rw [digitVal_digitChar h1, digitVal_digitChar h2, digitVal_digitChar h3, digitVal_digitChar h4]
    omega
  rw [hyv]

set_option maxHeartbeats 4000000 in
set_option maxRecDepth 10000 in
/-- The month-day match on a zero-padded `MMDD` block, for every month and
day value below 100: it succeeds, consuming everything, exactly when
`1 ≤ m ≤ 12` and `1 ≤ d ≤ 31`, and then returns `(m, d)`.  (Checked by
exhaustive evaluation of the model.) -/
theorem mdOutcome_pad2 : ∀ m, m < 100 → ∀ d, d < 100 →
    mdOutcome (pad2 m ++ pad2 d) =
      (if 1 ≤ m ∧ m ≤ 12 ∧ 1 ≤ d ∧ d ≤ 31 then some (m, d) else none) := by
  decide

theorem daysInMonth_le_31 (y m : Nat) : daysInMonth y m ≤ 31 := by
  unfold daysInMonth
  split_ifs <;> omega

/-- `format_date` on any value whose string form is the zero-padded 8-digit
block `YYYYMMDD`: the ISO string when the triple is a valid calendar date,
`None` otherwise. -/
theorem format_date_encode8 (v : PyVal) (y m d : Nat) (hy : y < 10000) (hm : m < 100)
    (hd : d < 100) (hs : pyStr v = encode8 y m d) :
    format_date v = if validYmd y m d then some (isoString y m d) else none := by
  unfold format_date
  rw [hs]
  have htl : (encode8 y m d).toList = pad4 y ++ (pad2 m ++ pad2 d) := by
    show pad4 y ++ pad2 m ++ pad2 d = _
    rw [List.append_assoc]
  rw [htl, strpMatch_pad4 y hy, mdOutcome_pad2 m hm d hd]
  by_cases hv : validYmd y m d
  · have hr : 1 ≤ m ∧ m ≤ 12 ∧ 1 ≤ d ∧ d ≤ 31 := by
      obtain ⟨_, _, _, _, _, h6⟩ := hv
      have := daysInMonth_le_31 y m
      omega
    rw [if_pos hr]
    simp [hv]
  · by_cases hr : 1 ≤ m ∧ m ≤ 12 ∧ 1 ≤ d ∧ d ≤ 31
    · rw [if_pos hr]
      simp [hv]
    · rw [if_neg hr]
      simp [hv]

/-- Every month candidate consumes one or two characters of the input. -/
theorem monthCands_shape {cs : List Char} {p : Nat × List Char} (hp : p ∈ monthCands cs) :
    (p.2 = cs.drop 1 ∧ 1 ≤ cs.length) ∨ (p.2 = cs.drop 2 ∧ 2 ≤ cs.length) := by
  cases cs with
  | nil => simp [monthCands] at hp
  | cons c1 tl =>
    cases tl with
    | nil =>
      simp only [monthCands] at hp
      split at hp
      · simp only [List.mem_singleton] at hp
        subst hp
        exact Or.inl ⟨rfl, by simp⟩
      · simp at hp
    | cons c2 rest =>
      simp only [monthCands] at hp
      rcases List.mem_append.mp hp with h | h
      · split at h
        · simp only [List.mem_singleton] at h
          subst h
          exact Or.inr ⟨rfl, by simp only [List.length_cons]; omega⟩
        · split at h
          · simp only [List.mem_singleton] at h
            subst h
            exact Or.inr ⟨rfl, by simp only [List.length_cons]; omega⟩
          · simp at h
      · split at h
        · simp only [List.mem_singleton] at h
          subst h
          exact Or.inl ⟨rfl, by simp only [List.length_cons]; omega⟩
        · simp at h

/-- A successful day match consumes one or two characters of the input. -/
theorem matchDay_shape {cs : List Char} {v : Nat} {r : List Char}
    (h : matchDay cs = some (v, r)) :
    (r = cs.drop 1 ∧ 1 ≤ cs.length) ∨ (r = cs.drop 2 ∧ 2 ≤ cs.length) := by
  cases cs with
  | nil => simp [matchDay] at h
  | cons c1 tl =>
    cases tl with
    | nil =>
      simp only [matchDay] at h
      split at h
      · simp only [Option.some.injEq, Prod.mk.injEq] at h
        obtain ⟨-, h2⟩ := h
        subst h2
        exact Or.inl ⟨rfl, by simp⟩
      · exact absurd h (by simp)
    | cons c2 rest =>
      simp only [matchDay] at h
      split_ifs at h
      all_goals first
        | (simp only [Option.some.injEq, Prod.mk.injEq] at h
           obtain ⟨-, h2⟩ := h
           subst h2
           first
             | exact Or.inl ⟨rfl, by simp only [List.length_cons]; omega⟩
             | exact Or.inr ⟨rfl, by simp only [List.length_cons]; omega⟩)

/-- A successful month-day match pins the block's length to 2-4 characters
and exhibits the day directive matching its final one or two characters. -/
theorem mdOutcome_some_shape {cs : List Char} {md : Nat × Nat} (h : mdOutcome cs = some md) :
    2 ≤ cs.length ∧ cs.length ≤ 4 ∧
      ∃ k, (k = 1 ∨ k = 2) ∧ k ≤ cs.length ∧
        ∃ dv, matchDay (cs.drop (cs.length - k)) = some (dv, []) := by
  unfold mdOutcome at h
  split at h
  case h_2 => exact absurd h (by simp)
  case h_1 m' d' r heq =>
    split_ifs at h with hr
    subst hr
    obtain ⟨mc, hmc, hday⟩ := List.exists_of_findSome?_eq_some heq
    rw [Option.map_eq_some'] at hday
    obtain ⟨dc, hdc, hinj⟩ := hday
    have hdc2 : dc.2 = [] := congrArg (fun t => t.2.2) hinj
    have hdceq : matchDay mc.2 = some (dc.1, []) := by rw [← hdc2]; exact hdc
    rcases monthCands_shape hmc with ⟨hm2, hj⟩ | ⟨hm2, hj⟩ <;>
      rcases matchDay_shape hdceq with ⟨hd2, hk⟩ | ⟨hd2, hk⟩
    · -- month one char, day one char
      have e1 : mc.2.length = cs.length - 1 := by rw [hm2, List.length_drop]
      have e2 : mc.2.length ≤ 1 := List.drop_eq_nil_iff.mp hd2.symm
      refine ⟨by omega, by omega, 1, Or.inl rfl, by omega, dc.1, ?_⟩
      rw [show cs.length - 1 = 1 from by omega, ← hm2]
      exact hdceq
    · -- month one char, day two chars
      have e1 : mc.2.length = cs.length - 1 := by rw [hm2, List.length_drop]
      have e2 : mc.2.length ≤ 2 := List.drop_eq_nil_iff.mp hd2.symm
      refine ⟨by omega, by omega, 2, Or.inr rfl, by omega, dc.1, ?_⟩
      rw [show cs.length - 2 = 1 from by omega, ← hm2]
      exact hdceq
    · -- month two chars, day one char
      have e1 : mc.2.length = cs.length - 2 := by rw [hm2, List.length_drop]
      have e2 : mc.2.length ≤ 1 := List.drop_eq_nil_iff.mp hd2.symm
      refine ⟨by omega, by omega, 1, Or.inl rfl, by omega, dc.1, ?_⟩
      rw [show cs.length - 1 = 2 from by omega, ← hm2]
      exact hdceq
    · -- month two chars, day two chars
      have e1 : mc.2.length = cs.length - 2 := by rw [hm2, List.length_drop]
      have e2 : mc.2.length ≤ 2 := List.drop_eq_nil_iff.mp hd2.symm
      refine ⟨by omega, by omega, 2, Or.inr rfl, by omega, dc.1, ?_⟩
      rw [show cs.length - 2 = 2 from by omega, ← hm2]
      exact hdceq

/-- A successful full match pins the input's length to 6-8 characters and
exhibits the day directive matching the input's final one or two characters. -/
theorem strpMatch_some_shape {cs : List Char} {ymd : Nat × Nat × Nat}
    (h : strpMatch cs = some ymd) :
    6 ≤ cs.length ∧ cs.length ≤ 8 ∧
      ∃ k, (k = 1 ∨ k = 2) ∧ k ≤ cs.length ∧
        ∃ dv, matchDay (cs.drop (cs.length - k)) = some (dv, []) := by
  cases cs with
  | nil => simp [strpMatch] at h
  | cons y1 t1 =>
  cases t1 with
  | nil => simp [strpMatch] at h
  | cons y2 t2 =>
  cases t2 with
  | nil => simp [strpMatch] at h
  | cons y3 t3 =>
  cases t3 with
  | nil => simp [strpMatch] at h
  | cons y4 rest =>
    simp only [strpMatch] at h
    split_ifs at h
    rw [Option.map_eq_some'] at h
    obtain ⟨md, hmd, -⟩ := h
    obtain ⟨hge, hle, k, hk12, hkle, dv, hdv⟩ := mdOutcome_some_shape hmd
    have hlen : (y1 :: y2 :: y3 :: y4 :: rest).length = rest.length + 4 := by
      simp only [List.length_cons]
    refine ⟨by omega, by omega, k, hk12, by omega, dv, ?_⟩
    have hdrop : (y1 :: y2 :: y3 :: y4 :: rest).drop (4 + (rest.length - k)) =
        rest.drop (rest.length - k) := by
      rw [← List.drop_drop]
      rfl
    rw [show (y1 :: y2 :: y3 :: y4 :: rest).length - k = 4 + (rest.length - k) from by
      simp only [List.length_cons]; omega]
    rw [hdrop]
    exact hdv

/-- A value whose string form has fewer than 6 or more than 8 characters
never parses: `format_date` yields `None` on it. -/
theorem format_date_length_none {v : PyVal}
    (h : ¬(6 ≤ (pyStr v).length ∧ (pyStr v).length ≤ 8)) : format_date v = none := by
  unfold format_date
  cases hs : strpMatch (pyStr v).toList with
  | none => rfl
  | some ymd =>
    obtain ⟨h6, h8, -⟩ := strpMatch_some_shape hs
    have hlen : (pyStr v).length = (pyStr v).toList.length := rfl
    exact absurd ⟨by omega, by omega⟩ h

/-- An integral float renders with the decimal suffix `".0"`, which the
pattern can never consume: `format_date` yields `None` on every such value. -/
theorem format_date_floatInt (n : Int) : format_date (.floatInt n) = none := by
  unfold format_date
  cases hs : strpMatch (pyStr (.floatInt n)).toList with
  | none => rfl
  | some ymd =>
    exfalso
    obtain ⟨h6, h8, k, hk12, hkle, dv, hdv⟩ := strpMatch_some_shape hs
    have hlist : (pyStr (.floatInt n)).toList = (toString n).toList ++ ['.', '0'] := rfl
    rw [hlist] at hdv
    have hl2 : ((toString n).toList ++ ['.', '0']).length = (toString n).toList.length + 2 := by
      simp
    rcases hk12 with rfl | rfl
    · have hdrop : ((toString n).toList ++ ['.', '0']).drop
          (((toString n).toList ++ ['.', '0']).length - 1) = ['0'] := by
        rw [hl2, show (toString n).toList.length + 2 - 1 = (toString n).toList.length + 1 from by
          omega, List.drop_append]
        rfl
      rw [hdrop] at hdv
      rw [show matchDay ['0'] = none from by decide] at hdv
      exact Option.noConfusion hdv
    · have hdrop : ((toString n).toList ++ ['.', '0']).drop
          (((toString n).toList ++ ['.', '0']).length - 2) = ['.', '0'] := by
        rw [hl2, show (toString n).toList.length + 2 - 2 = (toString n).toList.length + 0 from by
          omega, List.drop_append]
        rfl
      rw [hdrop] at hdv
      rw [show matchDay ['.', '0'] = none from by decide] at hdv
      exact Option.noConfusion hdv

/-! ## The in-memory table and the loaders -/

/-- A cell of the loaded frame after `df.where(pd.notnull(df), None)`
(ingestion.py line 30): a value or the canonical null. -/
abbrev Cell := Option PyVal

/-- A row dict as produced by `to_dict(orient="records")`: column name to
cell, in the projection's column order. -/
abbrev Row := List (String × Cell)

/-- The loaded frame: its column names and its rows (each aligned with
`cols`). -/
structure DataFrame where
  cols : List String
  rows : List (List Cell)

/-- The cell of a source row under a column name (null when the column is
absent; the loaders only read columns they project). -/
def getCell (cols : List String) (row : List Cell) (c : String) : Cell :=
  ((cols.zip row).lookup c).getD none

/-- One row of `df[sel]` as a record dict: the selected columns in order,
each with its cell. -/
def projectRow (cols sel : List String) (row : List Cell) : Row :=
  sel.map (fun c => (c, getCell cols row c))

/-- `df[sel].to_dict(orient="records")`: every source row projected. -/
def selectRows (df : DataFrame) (sel : List String) : List Row :=
  df.rows.map (projectRow df.cols sel)

/-- The cell of a record dict under a column name. -/
def rowCell (r : Row) (c : String) : Cell := (r.lookup c).getD none

/-- `dropna(subset=keys)`: keep exactly the rows whose every key cell is
non-null. -/
def dropnaSubset (keys : List String) (rs : List Row) : List Row :=
  rs.filter (fun r => keys.all (fun k => (rowCell r k).isSome))

/-- `drop_duplicates()`: keep the first occurrence of every value, in
order. -/
def dropDuplicates {α : Type} [DecidableEq α] : List α → List α
  | [] => []
  | a :: t => a :: dropDuplicates (t.filter (fun x => x ≠ a))
termination_by l => l.length
decreasing_by
  simp only [List.length_cons]
  exact Nat.lt_succ_of_le (List.length_filter_le _ t)

/-- The batch slices `rows[i:i+chunk_size]` for `i in range(0, len(rows),
chunk_size)` (ingestion.py lines 103-104 and 166-167), in order.  A zero
chunk size raises `ValueError` in `range` and never occurs (the scripts
always use the default 20000); it is mapped to no batches here. -/
def chunks {α : Type} (n : Nat) : List α → List (List α)
  | [] => []
  | a :: t => if _h : n = 0 then [] else (a :: t).take n :: chunks n ((a :: t).drop n)
termination_by l => l.length
decreasing_by
  simp only [List.length_drop, List.length_cons]
  omega

/-- The default `chunk_size` of `ingest_label` and `create_relationship`. -/
def chunkSize : Nat := 20000

/-- The properties of a stored node: column name to value, `none` for a
property not present on the node. -/
abbrev Props := String → Cell

/-- The node store restricted to one run's labels: a (label, key value)
pair to the node's properties, `none` when no such node exists. -/
abbrev NodeStore := String × PyVal → Option Props

def emptyProps : Props := fun _ => none

def emptyStore : NodeStore := fun _ => none

/-- Cypher `SET n += row` on one node, modelled from the spec's upsert
("overwrites all supplied properties on it; properties not present in the
batch are left untouched"): every column of the row dict overwrites the
node's property of that name (a null cell as removal/null), every other
property is kept. -/
def setPlusEq (p : Props) (row : Row) : Props :=
  fun c =>
    match row.lookup c with
    | some v => v
    | none => p c

/-- The key cell `row.{id_field}` of a record dict. -/
def rowKey (idField : String) (r : Row) : Cell := rowCell r idField

/-- One row of the node-loader query (ingestion.py lines 98-102),
modelled from the spec's upsert: `MERGE (n:label {id_field: row.id_field})`
finds or creates the node of that label and key, and `SET n += row`
overwrites its properties.  The loader never reaches this with a null key
(`dropna` precedes it; Cypher would raise on a null `MERGE` key). -/
def mergeSet (label idField : String) (store : NodeStore) (row : Row) : NodeStore :=
  match rowKey idField row with
  | none => store
  | some k =>
      fun lk =>
        if lk = (label, k) then some (setPlusEq ((store (label, k)).getD emptyProps) row)
        else store lk

/-- The rows the node loader keeps:
`df[columns].dropna(subset=[id_field]).to_dict(orient="records")`
(ingestion.py line 92). -/
def nodeRows (df : DataFrame) (idField : String) (cols : List String) : List Row :=
  dropnaSubset [idField] (selectRows df cols)

/-- The dropped-row count the node loader logs: `before - after`
(ingestion.py lines 91-94). -/
def droppedCount (df : DataFrame) (idField : String) (cols : List String) : Nat :=
  df.rows.length - (nodeRows df idField cols).length

/-- `ingest_label` (ingestion.py lines 87-105): project, drop null-key rows,
chunk, and apply each batch as one write transaction of per-row
`MERGE`+`SET`, sequentially. -/
def ingest_label (df : DataFrame) (label idField : String) (cols : List String)
    (s : NodeStore) : NodeStore :=
  (chunks chunkSize (nodeRows df idField cols)).foldl
    (fun st batch => batch.foldl (mergeSet label idField) st) s

/-- The rows the relationship loader submits, before batching:
`df[columns].dropna(subset=columns).drop_duplicates().to_dict("records")`
(ingestion.py line 165). -/
def relRows (df : DataFrame) (cols : List String) : List Row :=
  dropDuplicates (dropnaSubset cols (selectRows df cols))

/-- `create_relationship` (ingestion.py lines 161-168) up to the store: the
batches of key-pair rows submitted for `MERGE`, in submission order. -/
def create_relationship (df : DataFrame) (cols : List String) : List (List Row) :=
  chunks chunkSize (relRows df cols)

/-- The number of distinct join-key combinations of the source whose keys
are all non-null for a relationship, written after the spec's words ("the
number of distinct non-null join-key pairs present in the source"): filter
the source rows to those with every join key non-null, project onto the
join-key columns, and count the distinct results. -/
def specDistinctPairs (df : DataFrame) (cols : List String) : Nat :=
  (dropDuplicates
    ((df.rows.filter (fun row => cols.all (fun c => (getCell df.cols row c).isSome))).map
      (projectRow df.cols cols))).length

/-! ## Constraints -/

/-- A uniqueness constraint: a label and the property required unique. -/
structure Constraint where
  label : String
  field : String
deriving DecidableEq

/-- Modelled from the spec: the store side of one
`CREATE CONSTRAINT [IF NOT EXISTS] ... REQUIRE ... IS UNIQUE` declaration
("if the store already has the constraint, the declaration is a no-op
(never an error)"; without `IF NOT EXISTS` an existing constraint is an
error). -/
def runCreateConstraint (s : List Constraint) (c : Constraint) (ifNotExists : Bool) :
    Except String (List Constraint) :=
  if c ∈ s then (if ifNotExists then .ok s else .error "equivalent constraint already exists")
  else .ok (c :: s)

/-- The five constraints declared by `create_constraints`
(ingestion.py lines 74-79), each with `IF NOT EXISTS`. -/
def constraintList : List Constraint :=
  [⟨"PurchaseOrder", "ID"⟩, ⟨"Material", "MaterialCode"⟩, ⟨"Warehouse", "WarehouseLocation"⟩,
   ⟨"Vendor", "VendorCode"⟩, ⟨"BusinessUnit", "BusinessUnitCode"⟩]

/-- `create_constraints` (ingestion.py lines 74-82): the five `IF NOT
EXISTS` declarations run in order in one transaction. -/
def create_constraints (s : List Constraint) : Except String (List Constraint) :=
  constraintList.foldlM (fun st c => runCreateConstraint st c true) s

/-- `create_constraints` run `n` times in sequence, stopping at the first
error. -/
def create_constraints_iter : Nat → List Constraint → Except String (List Constraint)
  | 0, s => .ok s
  | n + 1, s => (create_constraints s).bind (create_constraints_iter n)

/-! ## The date-column loop -/

/-- The fixed date-column list (ingestion.py line 52). -/
def date_columns : List String :=
  ["PODate", "ExpectedDeliveryStartDate", "ExpectedDeliveryEndDate",
   "ActualDeliveryDate", "ReceivedDate"]

/-- `format_date` applied to one cell by `Series.apply`: a null cell stays
null (`str(None)` never parses), a value is replaced by its parse result. -/
def cellFormatDate (cell : Cell) : Cell := (cell.bind format_date).map PyVal.str

/-- `df[col] = df[col].apply(format_date)` guarded by `col in df.columns`
(ingestion.py lines 53-55): replace that column's cells in every row when
the column is present, do nothing when it is absent. -/
def applyDateCol (df : DataFrame) (c : String) : DataFrame :=
  if c ∈ df.cols then
    ⟨df.cols,
     df.rows.map (fun row =>
       List.zipWith (fun name v => if name = c then cellFormatDate v else v) df.cols row)⟩
  else df

/-- The whole date-formatting loop (ingestion.py lines 53-55). -/
def formatDateColumns (df : DataFrame) : DataFrame :=
  date_columns.foldl applyDateCol df

/-! ## Facts about projection and filtering -/

/-- Looking a column up in a projected record: its source cell when the
column was selected, nothing otherwise (duplicate selections repeat the
same cell, so the first hit decides). -/
theorem lookup_projectRow (cols sel : List String) (row : List Cell) (c : String) :
    (projectRow cols sel row).lookup c =
      if c ∈ sel then some (getCell cols row c) else none := by
  induction sel with
  | nil => simp [projectRow]
  | cons s ss ih =>
    simp only [projectRow, List.map_cons, List.lookup_cons] at *
    by_cases hc : c = s
    · subst hc
      simp [ih]
    · rw [show (c == s) = false from beq_eq_false_iff_ne.mpr hc]
      simp only [ih, List.mem_cons]
      by_cases hcss : c ∈ ss
      · simp [hcss]
      · simp [hcss, hc]

theorem rowCell_projectRow (cols sel : List String) (row : List Cell) (c : String) :
    rowCell (projectRow cols sel row) c =
      if c ∈ sel then getCell cols row c else none := by
  unfold rowCell
  rw [lookup_projectRow]
  split_ifs <;> rfl

/-- Null-key filtering after projection is the projection of the
null-key-filtered source rows, when every tested key is among the selected
columns: the loaders drop exactly the source rows with a null key and keep
everything else with its multiplicity and order. -/
theorem dropnaSubset_selectRows (df : DataFrame) (sel keys : List String)
    (hkeys : ∀ k ∈ keys, k ∈ sel) :
    dropnaSubset keys (selectRows df sel) =
      (df.rows.filter (fun row => keys.all (fun k => (getCell df.cols row k).isSome))).map
        (projectRow df.cols sel) := by
  unfold dropnaSubset selectRows
  rw [List.filter_map]
  congr 1
  apply List.filter_congr
  intro row _
  simp only [Function.comp_apply]
  rw [Bool.eq_iff_iff, List.all_eq_true, List.all_eq_true]
  constructor
  · intro h k hk
    have := h k hk
    rwa [rowCell_projectRow, if_pos (hkeys k hk)] at this
  · intro h k hk
    rw [rowCell_projectRow, if_pos (hkeys k hk)]
    exact h k hk

theorem mem_dropDuplicates {α : Type} [DecidableEq α] {l : List α} {a : α} :
    a ∈ dropDuplicates l ↔ a ∈ l := by
  have key : ∀ (n : Nat) (l : List α), l.length ≤ n → ∀ a : α, (a ∈ dropDuplicates l ↔ a ∈ l) := by
    intro n
    induction n with
    | zero =>
      intro l hl a
      rw [List.eq_nil_of_length_eq_zero (show l.length = 0 by omega)]
      simp [dropDuplicates]
    | succ m ih =>
      intro l hl a
      cases l with
      | nil => simp [dropDuplicates]
      | cons b t =>
        rw [dropDuplicates]
        have hlen : (t.filter (fun x => x ≠ b)).length ≤ m := by
          have h1 := List.length_filter_le (fun x => x ≠ b) t
          simp only [List.length_cons] at hl
          omega
        simp only [List.mem_cons, ih _ hlen a, List.mem_filter]
        by_cases hab : a = b
        · simp [hab]
        · simp [hab]
  exact key l.length l le_rfl a

theorem nodup_dropDuplicates {α : Type} [DecidableEq α] (l : List α) :
    (dropDuplicates l).Nodup := by
  have key : ∀ (n : Nat) (l : List α), l.length ≤ n → (dropDuplicates l).Nodup := by
    intro n
    induction n with
    | zero =>
      intro l hl
      rw [List.eq_nil_of_length_eq_zero (show l.length = 0 by omega)]
      simp only [dropDuplicates]
      exact List.nodup_nil
    | succ m ih =>
      intro l hl
      cases l with
      | nil =>
        simp only [dropDuplicates]
        exact List.nodup_nil
      | cons b t =>
        rw [dropDuplicates]
        have hlen : (t.filter (fun x => x ≠ b)).length ≤ m := by
          have h1 := List.length_filter_le (fun x => x ≠ b) t
          simp only [List.length_cons] at hl
          omega
        refine List.nodup_cons.mpr ⟨?_, ih _ hlen⟩
        intro hmem
        have hm2 := (mem_dropDuplicates).mp hmem
        rw [List.mem_filter] at hm2
        simp at hm2
  exact key l.length l le_rfl

/-! ## Facts about batching -/

theorem chunks_eq_nil_iff {α : Type} (n : Nat) (l : List α) :
    chunks n l = [] ↔ n = 0 ∨ l = [] := by
  cases l with
  | nil => simp [chunks]
  | cons a t =>
    rw [chunks]
    by_cases hn : n = 0
    · simp [hn]
    · simp [hn]

/-- Concatenating the batches in order gives back the batched list: batches
partition the rows in source order. -/
theorem chunks_flatten {α : Type} (n : Nat) (hn : n ≠ 0) (l : List α) :
    (chunks n l).flatten = l := by
  have key : ∀ (fuel : Nat) (l : List α), l.length ≤ fuel → (chunks n l).flatten = l := by
    intro fuel
    induction fuel with
    | zero =>
      intro l hl
      rw [List.eq_nil_of_length_eq_zero (show l.length = 0 by omega)]
      simp [chunks]
    | succ m ih =>
      intro l hl
      cases l with
      | nil => simp [chunks]
      | cons a t =>
        rw [chunks, dif_neg hn, List.flatten_cons]
        have hlen : ((a :: t).drop n).length ≤ m := by
          simp only [List.length_drop, List.length_cons]
          simp only [List.length_cons] at hl
          omega
        rw [ih _ hlen, List.take_append_drop]
  exact key l.length l le_rfl

/-- Every batch holds at most `n` rows and is nonempty. -/
theorem chunks_batch_size {α : Type} (n : Nat) (l : List α) :
    ∀ b ∈ chunks n l, b.length ≤ n ∧ b ≠ [] := by
  have key : ∀ (fuel : Nat) (l : List α), l.length ≤ fuel →
      ∀ b ∈ chunks n l, b.length ≤ n ∧ b ≠ [] := by
    intro fuel
    induction fuel with
    | zero =>
      intro l hl
      rw [List.eq_nil_of_length_eq_zero (show l.length = 0 by omega)]
      simp [chunks]
    | succ m ih =>
      intro l hl b hb
      cases l with
      | nil => simp [chunks] at hb
      | cons a t =>
        rw [chunks] at hb
        by_cases hn : n = 0
        · rw [dif_pos hn] at hb
          simp at hb
        · rw [dif_neg hn] at hb
          rcases List.mem_cons.mp hb with hb | hb
          · subst hb
            constructor
            · rw [List.length_take]
              exact min_le_left _ _
            · rw [Ne, List.take_eq_nil_iff]
              push_neg
              exact ⟨hn, by simp⟩
          · have hlen : ((a :: t).drop n).length ≤ m := by
              simp only [List.length_drop, List.length_cons]
              simp only [List.length_cons] at hl
              omega
            exact ih _ hlen b hb
  exact key l.length l le_rfl

/-- Every batch but the last holds exactly `n` rows. -/
theorem chunks_dropLast_size {α : Type} (n : Nat) (l : List α) :
    ∀ b ∈ (chunks n l).dropLast, b.length = n := by
  have key : ∀ (fuel : Nat) (l : List α), l.length ≤ fuel →
      ∀ b ∈ (chunks n l).dropLast, b.length = n := by
    intro fuel
    induction fuel with
    | zero =>
      intro l hl
      rw [List.eq_nil_of_length_eq_zero (show l.length = 0 by omega)]
      simp [chunks]
    | succ m ih =>
      intro l hl b hb
      cases l with
      | nil => simp [chunks] at hb
      | cons a t =>
        rw [chunks] at hb
        by_cases hn : n = 0
        · rw [dif_pos hn] at hb
          simp at hb
        · rw [dif_neg hn] at hb
          by_cases hrest : chunks n ((a :: t).drop n) = []
          · rw [hrest] at hb
            simp at hb
          · rw [List.dropLast_cons_of_ne_nil hrest] at hb
            rcases List.mem_cons.mp hb with hb | hb
            · subst hb
              have hd : (a :: t).drop n ≠ [] := by
                intro hd
                exact hrest (by rw [hd]; simp [chunks])
              rw [List.length_take]
              have : n ≤ (a :: t).length := by
                by_contra hgt
                push_neg at hgt
                exact hd (List.drop_eq_nil_iff.mpr (by omega))
              omega
            · have hlen : ((a :: t).drop n).length ≤ m := by
                simp only [List.length_drop, List.length_cons]
                simp only [List.length_cons] at hl
                omega
              exact ih _ hlen b hb
  exact key l.length l le_rfl

/-- Executing the batches sequentially, each as one fold over its rows, is
the single sequential fold over all kept rows. -/
theorem foldl_chunks {α β : Type} (n : Nat) (hn : n ≠ 0) (f : β → α → β) (s : β) (l : List α) :
    (chunks n l).foldl (fun st batch => batch.foldl f st) s = l.foldl f s := by
  calc (chunks n l).foldl (fun st batch => batch.foldl f st) s
      = (chunks n l).flatten.foldl f s := (List.foldl_flatten f s (chunks n l)).symm
    _ = l.foldl f s := by rw [chunks_flatten n hn]

/-! ## Facts about the node upsert -/

/-- The rows of a batch run carrying a given key value, in order. -/
def rowsFor (idField : String) (k : PyVal) (rs : List Row) : List Row :=
  rs.filter (fun r => rowKey idField r = some k)

theorem mem_of_mem_rowsFor {idField : String} {k : PyVal} {rs : List Row} {r : Row}
    (h : r ∈ rowsFor idField k rs) : r ∈ rs :=
  (List.mem_filter.mp h).1

/-- Pointwise description of a sequential `MERGE`+`SET` run over a store: a
(label, key) slot either keeps its prior state (no row carries the key) or
holds the fold of its rows' property overwrites over its prior properties. -/
theorem foldl_mergeSet_at (label idF : String) (rs : List Row) (s : NodeStore) (k : PyVal) :
    (rs.foldl (mergeSet label idF) s) (label, k) =
      if rowsFor idF k rs = [] then s (label, k)
      else some ((rowsFor idF k rs).foldl setPlusEq ((s (label, k)).getD emptyProps)) := by
  induction rs generalizing s with
  | nil => simp [rowsFor]
  | cons r rs ih =>
    rw [List.foldl_cons, ih]
    cases hk : rowKey idF r with
    | none =>
      have hrows : rowsFor idF k (r :: rs) = rowsFor idF k rs := by
        simp [rowsFor, List.filter_cons, hk]
      have hm : mergeSet label idF s r = s := by
        simp [mergeSet, hk]
      rw [hrows, hm]
    | some k' =>
      by_cases hkk : k' = k
      · subst hkk
        have hrows : rowsFor idF k' (r :: rs) = r :: rowsFor idF k' rs := by
          simp [rowsFor, List.filter_cons, hk]
        have hm : (mergeSet label idF s r) (label, k') =
            some (setPlusEq ((s (label, k')).getD emptyProps) r) := by
          simp [mergeSet, hk]
        rw [hrows]
        by_cases hemp : rowsFor idF k' rs = []
        · rw [if_pos hemp, hm, if_neg (by simp), hemp]
          simp
        · rw [if_neg hemp, hm, if_neg (by simp)]
          simp
      · have hkk' : ¬k = k' := fun h => hkk h.symm
        have hrows : rowsFor idF k (r :: rs) = rowsFor idF k rs := by
          simp [rowsFor, List.filter_cons, hk, hkk', hkk]
        have hm : (mergeSet label idF s r) (label, k) = s (label, k) := by
          simp [mergeSet, hk, hkk']
        rw [hrows, hm]

/-- A run for one label never touches another label's slots. -/
theorem foldl_mergeSet_ne (label idF : String) (rs : List Row) (s : NodeStore)
    (lk : String × PyVal) (h : lk.1 ≠ label) :
    (rs.foldl (mergeSet label idF) s) lk = s lk := by
  induction rs generalizing s with
  | nil => rfl
  | cons r rs ih =>
    rw [List.foldl_cons, ih]
    cases hk : rowKey idF r with
    | none => simp [mergeSet, hk]
    | some k' =>
      have hne : lk ≠ (label, k') := by
        intro he
        exact h (by rw [he])
      simp [mergeSet, hk, hne]

theorem setPlusEq_lookup_none {p : Props} {r : Row} {c : String} (hc : r.lookup c = none) :
    setPlusEq p r c = p c := by
  simp [setPlusEq, hc]

/-- Two property states overwritten by the same row agree wherever they
agreed outside the row's columns. -/
theorem setPlusEq_congr {p q : Props} {r : Row} (h : ∀ c, r.lookup c = none → p c = q c) :
    setPlusEq p r = setPlusEq q r := by
  funext c
  unfold setPlusEq
  cases hc : r.lookup c with
  | some v => rfl
  | none => exact h c hc

theorem foldl_setPlusEq_lookup_none (L : List Row) (c : String) :
    ∀ (p : Props), (∀ r ∈ L, r.lookup c = none) → (L.foldl setPlusEq p) c = p c := by
  induction L with
  | nil =>
    intro p _
    rfl
  | cons r t ih =>
    intro p hL
    rw [List.foldl_cons, ih _ (fun r' hr' => hL r' (List.mem_cons_of_mem _ hr')),
      setPlusEq_lookup_none (hL r (List.mem_cons_self _ _))]

theorem foldl_setPlusEq_cons_congr {p q : Props} (r : Row) (t : List Row)
    (h : setPlusEq p r = setPlusEq q r) :
    (r :: t).foldl setPlusEq p = (r :: t).foldl setPlusEq q := by
  rw [List.foldl_cons, List.foldl_cons, h]

/-- Replaying the same property-overwrite sequence on its own outcome
reproduces the outcome, when all rows cover the same column set: the first
replayed row restores every covered column and nothing outside the column
set was ever written. -/
theorem foldl_setPlusEq_twice (sel : List String) (L : List Row)
    (hL : ∀ r ∈ L, ∀ c : String, r.lookup c = none ↔ c ∉ sel) :
    L.foldl setPlusEq (L.foldl setPlusEq emptyProps) = L.foldl setPlusEq emptyProps := by
  cases L with
  | nil => rfl
  | cons r t =>
    apply foldl_setPlusEq_cons_congr
    apply setPlusEq_congr
    intro c hc
    have hcsel : c ∉ sel := (hL r (List.mem_cons_self _ _) c).mp hc
    apply foldl_setPlusEq_lookup_none
    intro r' hr'
    exact (hL r' hr' c).mpr hcsel

/-- Every kept node-loader row is a projection onto the configured columns:
it has a column exactly when the column was configured. -/
theorem nodeRows_lookup_iff (df : DataFrame) (idF : String) (cols : List String)
    {r : Row} (hr : r ∈ nodeRows df idF cols) (c : String) :
    r.lookup c = none ↔ c ∉ cols := by
  unfold nodeRows dropnaSubset selectRows at hr
  have hr2 := (List.mem_filter.mp hr).1
  obtain ⟨row, -, rfl⟩ := List.mem_map.mp hr2
  rw [lookup_projectRow]
  by_cases hc : c ∈ cols
  · simp [hc]
  · simp [hc]

/-! ## Facts about the relationship loader -/

/-- The key-pair rows the relationship loader submits are exactly the
projections of the fully-non-null source rows, one per distinct value. -/
theorem mem_relRows (df : DataFrame) (cols : List String) (r : Row) :
    r ∈ relRows df cols ↔
      ∃ row ∈ df.rows, (∀ c ∈ cols, (getCell df.cols row c).isSome = true) ∧
        r = projectRow df.cols cols row := by
  unfold relRows
  rw [mem_dropDuplicates, dropnaSubset_selectRows df cols cols (fun k hk => hk)]
  simp only [List.mem_map, List.mem_filter, List.all_eq_true]
  constructor
  · rintro ⟨row, ⟨hrow, hall⟩, rfl⟩
    exact ⟨row, hrow, hall, rfl⟩
  · rintro ⟨row, hrow, hall, rfl⟩
    exact ⟨row, ⟨hrow, hall⟩, rfl⟩

/-- The number of key-pair rows the relationship loader submits is the
number of distinct fully-non-null key combinations of the source. -/
theorem length_relRows (df : DataFrame) (cols : List String) :
    (relRows df cols).length = specDistinctPairs df cols := by
  unfold relRows specDistinctPairs
  rw [dropnaSubset_selectRows df cols cols (fun k hk => hk)]

/-! ## Facts about the constraints -/

/-- A run of `IF NOT EXISTS` declarations over any store succeeds, and the
resulting store holds exactly the prior and the declared constraints. -/
theorem foldlM_constraints_ok (L : List Constraint) :
    ∀ s : List Constraint, ∃ s',
      L.foldlM (fun st c => runCreateConstraint st c true) s = .ok s' ∧
        ∀ c, c ∈ s' ↔ (c ∈ s ∨ c ∈ L) := by
  induction L with
  | nil =>
    intro s
    exact ⟨s, rfl, by simp⟩
  | cons c0 L ih =>
    intro s
    by_cases hc : c0 ∈ s
    · obtain ⟨s', h1, h2⟩ := ih s
      refine ⟨s', ?_, ?_⟩
      · rw [List.foldlM_cons, show runCreateConstraint s c0 true = Except.ok s from by
          simp [runCreateConstraint, hc]]
        exact h1
      · intro c
        rw [h2]
        simp only [List.mem_cons]
        constructor
        · rintro (h | h)
          · exact Or.inl h
          · exact Or.inr (Or.inr h)
        · rintro (h | hco | h)
          · exact Or.inl h
          · exact Or.inl (hco ▸ hc)
          · exact Or.inr h
    · obtain ⟨s', h1, h2⟩ := ih (c0 :: s)
      refine ⟨s', ?_, ?_⟩
      · rw [List.foldlM_cons, show runCreateConstraint s c0 true = Except.ok (c0 :: s) from by
          simp [runCreateConstraint, hc]]
        exact h1
      · intro c
        rw [h2]
        simp only [List.mem_cons]
        tauto

/-! ## Facts about the date-column loop -/

/-- An absent date column leaves the frame untouched. -/
theorem applyDateCol_absent {df : DataFrame} {c : String} (h : c ∉ df.cols) :
    applyDateCol df c = df := by
  simp [applyDateCol, h]

theorem cols_applyDateCol (df : DataFrame) (c : String) :
    (applyDateCol df c).cols = df.cols := by
  unfold applyDateCol
  split_ifs <;> rfl

/-- Folding the column transformations over any column list touches exactly
the present columns: the loop equals its restriction to the present ones. -/
theorem foldl_applyDateCol_filter (L : List String) :
    ∀ df : DataFrame, L.foldl applyDateCol df =
      (L.filter (fun c => c ∈ df.cols)).foldl applyDateCol df := by
  induction L with
  | nil =>
    intro df
    rfl
  | cons c L ih =>
    intro df
    rw [List.foldl_cons, List.filter_cons]
    by_cases hc : c ∈ df.cols
    · rw [if_pos (by simpa using hc), List.foldl_cons, ih (applyDateCol df c)]
      congr 1
      apply List.filter_congr
      intro x _
      rw [cols_applyDateCol]
    · rw [if_neg (by simpa using hc), applyDateCol_absent hc, ih df]

/-! ## The claims -/

/-- Claim C1: for every input table and entity configuration, running the
node-loader upsert (`ingest_label`'s `MERGE`-by-key followed by `SET` of all
supplied properties, over the rows surviving the null-key filter) twice on
identical input yields the same node store — hence the same set of nodes
and the same node count — as running it once. -/
theorem claim_C1_upsert_idempotent (df : DataFrame) (label idField : String)
    (cols : List String) :
    ingest_label df label idField cols (ingest_label df label idField cols emptyStore) =
      ingest_label df label idField cols emptyStore := by
  have hcs : chunkSize ≠ 0 := by decide
  unfold ingest_label
  simp only [foldl_chunks chunkSize hcs]
  funext lk
  obtain ⟨l', k⟩ := lk
  by_cases hl : l' = label
  · subst hl
    rw [foldl_mergeSet_at, foldl_mergeSet_at]
    by_cases hemp : rowsFor idField k (nodeRows df idField cols) = []
    · simp [hemp]
    · rw [if_neg hemp, if_neg hemp]
      simp only [emptyStore, Option.getD_none, Option.getD_some]
      exact congrArg some (foldl_setPlusEq_twice cols _
        (fun r hr c => nodeRows_lookup_iff df idField cols (mem_of_mem_rowsFor hr) c))
  · rw [foldl_mergeSet_ne label idField _ _ (l', k) hl]

/-- Claim C2 counterexample: the six-character digit string `"202311"` is of
the wrong length for the 8-digit form `YYYYMMDD`, yet `format_date` parses
it (four-digit year `2023`, then month `1`, day `1` by the underlying
`strptime` pattern) and returns an ISO string instead of null — refuting
"returns null for every other value (wrong length, ...)". -/
theorem claim_C2_counterexample :
    (pyStr (PyVal.str "202311")).length = 6 ∧
      format_date (PyVal.str "202311") = some "2023-01-01" :=
  ⟨rfl, by decide⟩

/-- Claim C2 (amended): `format_date` never raises (it is total), and for
every value: (a) when its string form is the 8-digit numeric block
`YYYYMMDD`, the result is the zero-padded ISO calendar string exactly when
the digits denote a valid calendar date (year at least 0001), and null
otherwise — so an impossible 8-digit date such as "20231332" yields null;
(b) when its string form is shorter than 6 or longer than 8 characters —
including null, whose string form is "None" — the result is null.  (The
amendment: string forms of length 6-8 other than the 8-digit block, such as
6-7-digit strings or a space-padded day, may also parse under the
`strptime` pattern, so "wrong length implies null" holds only outside
lengths 6-8.) -/
theorem claim_C2_format_date (v : PyVal) (y m d : Nat)
    (hy : y < 10000) (hm : m < 100) (hd : d < 100) :
    (pyStr v = encode8 y m d →
        format_date v = if validYmd y m d then some (isoString y m d) else none) ∧
      ((pyStr v).length < 6 ∨ 8 < (pyStr v).length → format_date v = none) := by
  constructor
  · exact format_date_encode8 v y m d hy hm hd
  · intro h
    exact format_date_length_none (by omega)

/-- Witness for C2's amended theorem at two concrete inputs: the invalid
8-digit date "20231332" maps to null, and the null value (string form
"None", length 4) maps to null. -/
theorem claim_C2_format_date_witness :
    format_date (PyVal.str "20231332") = none ∧ format_date PyVal.pnone = none := by
  constructor
  · have h := (claim_C2_format_date (PyVal.str "20231332") 2023 13 32
      (by decide) (by decide) (by decide)).1 (by decide)
    rw [h]
    decide
  · exact (claim_C2_format_date PyVal.pnone 0 0 0
      (by decide) (by decide) (by decide)).2 (by decide)

/-- Claim C10: `format_date` coerces its argument to a string before
parsing: every value — of any type — whose string form is the 8-digit block
of a valid calendar date yields the ISO string, while an integral float
renders with the decimal suffix ".0", always fails to parse, and yields
null. -/
theorem claim_C10_str_coercion (v : PyVal) (y m d : Nat) (n : Int)
    (hy : y < 10000) (hm : m < 100) (hd : d < 100) :
    (validYmd y m d → pyStr v = encode8 y m d → format_date v = some (isoString y m d)) ∧
      format_date (PyVal.floatInt n) = none := by
  constructor
  · intro hv hs
    rw [format_date_encode8 v y m d hy hm hd hs, if_pos hv]
  · exact format_date_floatInt n

/-- Witness for C10 at the claim's own examples: the integer `20230101`
parses to "2023-01-01", the float `20230101.0` yields null. -/
theorem claim_C10_str_coercion_witness :
    format_date (PyVal.int 20230101) = some "2023-01-01" ∧
      format_date (PyVal.floatInt 20230101) = none := by
  have h := claim_C10_str_coercion (PyVal.int 20230101) 2023 1 1 20230101
    (by decide) (by decide) (by decide)
  constructor
  · rw [h.1 (by decide) (by decide)]
    decide
  · exact h.2

/-- Claim C3: for every relationship configuration the loader selects the
join-key columns, drops every row in which a selected key is null, and
deduplicates before batching: the rows submitted to the store carry no
duplicates, are exactly the projections of the fully-non-null source rows,
and the submitted batches concatenate back to exactly that list. -/
theorem claim_C3_relationship_rows (df : DataFrame) (cols : List String) :
    (relRows df cols).Nodup ∧
      (∀ r : Row, r ∈ relRows df cols ↔
        ∃ row ∈ df.rows, (∀ c ∈ cols, (getCell df.cols row c).isSome = true) ∧
          r = projectRow df.cols cols row) ∧
      (create_relationship df cols).flatten = relRows df cols := by
  refine ⟨nodup_dropDuplicates _, fun r => mem_relRows df cols r, ?_⟩
  exact chunks_flatten chunkSize (by decide) _

/-- Claim C4: for every relationship configuration and input table, the
number of key-pair rows submitted for `MERGE` across all batches never
exceeds the number of distinct join-key combinations of the source whose
keys are all non-null for that relationship. -/
theorem claim_C4_rel_count_bound (df : DataFrame) (cols : List String) :
    ((create_relationship df cols).flatten).length ≤ specDistinctPairs df cols := by
  unfold create_relationship
  rw [chunks_flatten chunkSize (by decide), length_relRows]

/-- Claim C5: the node loader projects the configured columns and excludes
exactly the rows whose key cell is null — the kept list is the projection of
the null-key-filtered source rows, preserving multiplicity and order (no
deduplication) — and the logged discard count `before - after` equals the
number of source rows whose key field is null. -/
theorem claim_C5_null_key_filter (df : DataFrame) (idField : String) (cols : List String)
    (hid : idField ∈ cols) :
    nodeRows df idField cols =
        (df.rows.filter (fun row => (getCell df.cols row idField).isSome)).map
          (projectRow df.cols cols) ∧
      droppedCount df idField cols =
        (df.rows.filter (fun row => getCell df.cols row idField = none)).length := by
  have heq : nodeRows df idField cols =
      (df.rows.filter (fun row => (getCell df.cols row idField).isSome)).map
        (projectRow df.cols cols) := by
    unfold nodeRows
    rw [dropnaSubset_selectRows df cols [idField]
      (fun k hk => (List.mem_singleton.mp hk) ▸ hid)]
    congr 1
    apply List.filter_congr
    intro row _
    simp
  refine ⟨heq, ?_⟩
  unfold droppedCount
  rw [heq, List.length_map]
  have hsum := List.length_eq_length_filter_add
    (l := df.rows) (fun row => (getCell df.cols row idField).isSome)
  have hq : df.rows.filter (fun row => getCell df.cols row idField = none) =
      df.rows.filter (fun row => !(getCell df.cols row idField).isSome) := by
    apply List.filter_congr
    intro row _
    cases getCell df.cols row idField <;> simp
  rw [hq]
  omega

/-- Witness for C5 on a two-row table with one null key: the kept rows are
the projection of the one non-null-key row and the logged discard count
is 1. -/
theorem claim_C5_null_key_filter_witness :
    nodeRows ⟨["ID"], [[some (PyVal.str "a")], [none]]⟩ "ID" ["ID"] =
        ((⟨["ID"], [[some (PyVal.str "a")], [none]]⟩ : DataFrame).rows.filter
          (fun row => (getCell ["ID"] row "ID").isSome)).map (projectRow ["ID"] ["ID"]) ∧
      droppedCount ⟨["ID"], [[some (PyVal.str "a")], [none]]⟩ "ID" ["ID"] = 1 := by
  have h := claim_C5_null_key_filter ⟨["ID"], [[some (PyVal.str "a")], [none]]⟩ "ID" ["ID"]
    (by decide)
  refine ⟨h.1, ?_⟩
  rw [h.2]
  decide

/-- Claim C6: constraint initialization can run any number of times without
error — iterating the five `IF NOT EXISTS` declarations any number of times
from any store state always succeeds — and a declaration whose constraint
already exists leaves the store unchanged (a no-op, never a failure). -/
theorem claim_C6_constraints_idempotent (s : List Constraint) (n : Nat) :
    (∃ s', create_constraints_iter n s = .ok s') ∧
      (∀ c ∈ s, runCreateConstraint s c true = .ok s) := by
  constructor
  · induction n generalizing s with
    | zero => exact ⟨s, rfl⟩
    | succ m ih =>
      obtain ⟨s1, h1, -⟩ := foldlM_constraints_ok constraintList s
      obtain ⟨s2, h2⟩ := ih s1
      refine ⟨s2, ?_⟩
      show (create_constraints s).bind (create_constraints_iter m) = Except.ok s2
      have h1' : create_constraints s = Except.ok s1 := h1
      rw [h1']
      exact h2
  · intro c hc
    simp [runCreateConstraint, hc]

/-- Claim C7: after null-key filtering the node loader splits the kept rows
into batches of at most 20000 rows (the default chunk size), with every
batch except possibly the last holding exactly 20000 and none empty; the
batches concatenate to the kept rows in source order, and issuing them
sequentially (one fold per batch) equals the single sequential row fold. -/
theorem claim_C7_batching (df : DataFrame) (label idField : String) (cols : List String)
    (s : NodeStore) :
    (chunks chunkSize (nodeRows df idField cols)).flatten = nodeRows df idField cols ∧
      (∀ b ∈ (chunks chunkSize (nodeRows df idField cols)).dropLast, b.length = 20000) ∧
      (∀ b ∈ chunks chunkSize (nodeRows df idField cols), b.length ≤ 20000 ∧ b ≠ []) ∧
      ingest_label df label idField cols s =
        (nodeRows df idField cols).foldl (mergeSet label idField) s := by
  refine ⟨chunks_flatten chunkSize (by decide) _, ?_, ?_, ?_⟩
  · exact chunks_dropLast_size chunkSize _
  · exact chunks_batch_size chunkSize _
  · unfold ingest_label
    rw [foldl_chunks chunkSize (by decide)]

/-- Claim C8: each configured date column is transformed only when present
in the loaded frame — an absent date column is skipped and leaves the frame
untouched — and the whole loop equals its restriction to the present date
columns, so transforming the present columns is unaffected by absent
ones. -/
theorem claim_C8_date_columns_skip (df : DataFrame) :
    (∀ c, c ∉ df.cols → applyDateCol df c = df) ∧
      formatDateColumns df =
        (date_columns.filter (fun c => c ∈ df.cols)).foldl applyDateCol df :=
  ⟨fun _ hc => applyDateCol_absent hc, foldl_applyDateCol_filter date_columns df⟩

/-- Claim C9: a type whose filtered (and, for relationships, deduplicated)
row list is empty produces zero batches — hence zero write transactions —
and the loader completes normally: the node store is left untouched and the
relationship loader submits nothing. -/
theorem claim_C9_empty_input (df : DataFrame) (label idField : String)
    (cols cols2 : List String) (s : NodeStore) :
    (nodeRows df idField cols = [] →
        chunks chunkSize (nodeRows df idField cols) = [] ∧
          ingest_label df label idField cols s = s) ∧
      (relRows df cols2 = [] → create_relationship df cols2 = []) := by
  constructor
  · intro h
    have hc : chunks chunkSize (nodeRows df idField cols) = [] := by
      rw [h]
      simp [chunks]
    refine ⟨hc, ?_⟩
    unfold ingest_label
    rw [hc]
    rfl
  · intro h
    unfold create_relationship
    rw [h]
    simp [chunks]

/-- Witness for C9 on the empty table: zero batches and no store change for
the node loader, no submitted batches for the relationship loader. -/
theorem claim_C9_empty_input_witness :
    chunks chunkSize (nodeRows ⟨[], []⟩ "ID" []) = [] ∧
      ingest_label ⟨[], []⟩ "PurchaseOrder" "ID" [] emptyStore = emptyStore ∧
      create_relationship ⟨[], []⟩ [] = [] := by
  have h := claim_C9_empty_input ⟨[], []⟩ "PurchaseOrder" "ID" [] [] emptyStore
  have h1 := h.1 rfl
  refine ⟨h1.1, h1.2, h.2 ?_⟩
  simp [relRows, dropnaSubset, selectRows, dropDuplicates]

